import Mathlib

/-!
Verification of the field-extraction engine of `src/app.py` (OCR ticket
metadata extraction).  The Python functions `_collect_dates`,
`parse_datetime`, `parse_venue` and `parse_title` (src/app.py lines
92-193) are shallowly embedded as executable Lean functions over
`List Char`, including character-level models of the three date regexes
(`DATE_REGEXES`), Python `re.finditer` scanning, Python `str.strip`,
`str.splitlines`, and the whitespace-collapsing substitution
`re.sub(r"\s+", " ", ...)`.
-/

set_option maxRecDepth 4000

/-! ## Character classes (Python `\s`, `\d`, ASCII case) -/

/-- Python whitespace (`str.isspace` / regex `\s` for the characters that
can occur here): ASCII whitespace, NEL, NBSP, and the Unicode space
separators including the ideographic space U+3000. -/
def pyIsSpace (c : Char) : Bool :=
  c ∈ [' ', '\t', '\n', '\r', '\x0b', '\x0c', '\x1c', '\x1d', '\x1e', '\x1f',
       '\x85', '\xa0', ' ', ' ', ' ', ' ', ' ',
       ' ', ' ', ' ', ' ', ' ', ' ', ' ',
       ' ', ' ', ' ', ' ', '　']

/-- Python regex `\d` (Unicode decimal digit): ASCII digits and the
fullwidth digits U+FF10-U+FF19 that occur in Japanese OCR text. -/
def isPyDigit (c : Char) : Bool :=
  c.isDigit || (decide (0xFF10 ≤ c.toNat) && decide (c.toNat ≤ 0xFF19))

/-- Numeric value of a (possibly fullwidth) decimal digit, as `int()` reads it. -/
def digitVal (c : Char) : Nat :=
  if c.isDigit then c.toNat - 48 else c.toNat - 0xFF10

/-- ASCII lower-casing, the effect of `re.IGNORECASE` on the Latin letters
appearing in `TITLE_STOP_PAT`. -/
def asciiLower (c : Char) : Char :=
  if c.isUpper then Char.ofNat (c.toNat + 32) else c

/-- `\s*`: drop a maximal run of whitespace. -/
def skipWs (cs : List Char) : List Char := cs.dropWhile pyIsSpace

/-! ## Python string primitives: `splitlines`, `strip`, `re.sub(r"\s+", " ", .)` -/

/-- Line-break characters recognised by Python `str.splitlines`
(other than the `\r\n` pair, which is handled separately). -/
def isLineBreak (c : Char) : Bool :=
  c ∈ ['\n', '\r', '\x0b', '\x0c', '\x1c', '\x1d', '\x1e', '\x85', ' ', ' ']

/-- Worker for `splitlines`: `acc` holds the current line reversed. -/
def slAux : List Char → List Char → List (List Char)
  | [], acc => if acc.isEmpty then [] else [acc.reverse]
  | '\r' :: '\n' :: rest, acc => acc.reverse :: slAux rest []
  | c :: rest, acc =>
    if isLineBreak c then acc.reverse :: slAux rest []
    else slAux rest (c :: acc)

/-- Python `str.splitlines`. -/
def splitlines (cs : List Char) : List (List Char) := slAux cs []

/-- Drop trailing whitespace. -/
def dropWsEnd (cs : List Char) : List Char :=
  (cs.reverse.dropWhile pyIsSpace).reverse

/-- Python `str.strip()`. -/
def pyStrip (cs : List Char) : List Char := dropWsEnd (cs.dropWhile pyIsSpace)

/-- Worker for `re.sub(r"\s+", " ", .)`: `prevWs` records whether we are
inside a whitespace run whose single `' '` has already been emitted. -/
def collapseAux : Bool → List Char → List Char
  | _, [] => []
  | prevWs, c :: rest =>
    if pyIsSpace c then
      if prevWs then collapseAux true rest
      else ' ' :: collapseAux true rest
    else c :: collapseAux false rest

/-- Python `re.sub(r"\s+", " ", s)`: every maximal whitespace run becomes
a single space. -/
def collapseWs (cs : List Char) : List Char := collapseAux false cs

/-- Python `" ".join(parts)`. -/
def joinSpace : List (List Char) → List Char
  | [] => []
  | [l] => l
  | l :: ls => l ++ ' ' :: joinSpace ls

/-! ## Calendar dates (`datetime.date`) -/

/-- A Python `datetime.date` value. -/
structure PyDate where
  year : Nat
  month : Nat
  day : Nat
deriving DecidableEq

/-- Gregorian leap year, as `datetime` implements it. -/
def isLeap (y : Nat) : Bool :=
  (decide (y % 4 = 0) && decide (y % 100 ≠ 0)) || decide (y % 400 = 0)

/-- Number of days of month `m` in year `y`. -/
def daysInMonth (y m : Nat) : Nat :=
  if m = 2 then (if isLeap y then 29 else 28)
  else if m = 4 ∨ m = 6 ∨ m = 9 ∨ m = 11 then 30
  else 31

/-- The validity check performed by the `datetime.date` constructor;
`date(y, M, d)` raises `ValueError` exactly when this fails. -/
def dateValid (y m d : Nat) : Prop :=
  1 ≤ y ∧ y ≤ 9999 ∧ 1 ≤ m ∧ m ≤ 12 ∧ 1 ≤ d ∧ d ≤ daysInMonth y m

instance (y m d : Nat) : Decidable (dateValid y m d) := by
  unfold dateValid; infer_instance

/-- `date(y, M, d)` wrapped in the `try/except ValueError` of
`_collect_dates` (src/app.py lines 131-134): invalid dates give `none`. -/
def mkDate (y m d : Nat) : Option PyDate :=
  if dateValid y m d then some ⟨y, m, d⟩ else none

/-- Python `date` comparison `a < b` (lexicographic on year, month, day). -/
def dateLt (a b : PyDate) : Prop :=
  a.year < b.year ∨
    (a.year = b.year ∧
      (a.month < b.month ∨ (a.month = b.month ∧ a.day < b.day)))

instance (a b : PyDate) : Decidable (dateLt a b) := by
  unfold dateLt; infer_instance

/-- Python `date` comparison `a <= b`. -/
def dateLe (a b : PyDate) : Prop :=
  a.year < b.year ∨
    (a.year = b.year ∧
      (a.month < b.month ∨ (a.month = b.month ∧ a.day ≤ b.day)))

instance (a b : PyDate) : Decidable (dateLe a b) := by
  unfold dateLe; infer_instance

/-- One step of Python `max`: the accumulator is replaced only when the
new item is strictly greater. -/
def pyMax (a b : PyDate) : PyDate := if dateLt a b then b else a

/-- Python `max(iterable, default=None)`. -/
def maxDate? : List PyDate → Option PyDate
  | [] => none
  | d :: ds => some (ds.foldl pyMax d)

/-- A decimal digit character. -/
def digitChar (n : Nat) : Char := Char.ofNat (48 + n)

/-- Two-digit zero-padded decimal (strftime `%m` / `%d`). -/
def pad2 (n : Nat) : String := String.mk [digitChar (n / 10 % 10), digitChar (n % 10)]

/-- Four-digit zero-padded decimal (strftime `%Y` for years up to 9999). -/
def pad4 (n : Nat) : String :=
  String.mk [digitChar (n / 1000 % 10), digitChar (n / 100 % 10),
             digitChar (n / 10 % 10), digitChar (n % 10)]

/-- Python `d.strftime("%Y-%m-%d")`. -/
def formatDate (d : PyDate) : String :=
  pad4 d.year ++ "-" ++ pad2 d.month ++ "-" ++ pad2 d.day

/-! ## The three date regexes of `DATE_REGEXES` (src/app.py lines 98-102),
embedded as anchored matchers over `List Char`.

Pattern A: `(?P<y>20\d{2})\s*[./年-]\s*(?P<m>\d{1,2})\s*(?:[./月-])\s*(?P<d>\d{1,2})`
Pattern B: `(?P<m>\d{1,2})\s*月\s*(?P<d>\d{1,2})\s*日(?:\([^)]+\))?\s*(?P<y>20\d{2})\s*年?`
Pattern C: `(?P<y2>\d{2})\s*年\s*(?P<m>\d{1,2})\s*月\s*(?P<d>\d{1,2})`
-/

/-- The named groups of a regex match, already read as integers
(`_to_int` never fails on the digit strings the groups can hold). -/
structure MatchGroups where
  y : Option Nat
  y2 : Option Nat
  m : Option Nat
  d : Option Nat
deriving DecidableEq

/-- `\s*` followed by one literal character from `seps` (a character class). -/
def sepAfter (seps : List Char) (cs : List Char) : Option (List Char) :=
  match skipWs cs with
  | c :: rest => if seps.contains c then some rest else none
  | [] => none

/-- Greedy `\d{1,2}` whose continuation is `\s*` + a character from `seps`,
with the regex backtracking from two digits to one when the separator
fails after the second digit. -/
def digits12Sep (seps : List Char) (cs : List Char) : Option (Nat × List Char) :=
  match cs with
  | c1 :: rest1 =>
    if isPyDigit c1 then
      match rest1 with
      | c2 :: rest2 =>
        if isPyDigit c2 then
          match sepAfter seps rest2 with
          | some r => some (10 * digitVal c1 + digitVal c2, r)
          | none =>
            match sepAfter seps rest1 with
            | some r => some (digitVal c1, r)
            | none => none
        else
          match sepAfter seps rest1 with
          | some r => some (digitVal c1, r)
          | none => none
      | [] => none
    else none
  | [] => none

/-- Greedy `\d{1,2}` at the end of a pattern (no continuation). -/
def digits12 (cs : List Char) : Option (Nat × List Char) :=
  match cs with
  | c1 :: rest1 =>
    if isPyDigit c1 then
      match rest1 with
      | c2 :: rest2 =>
        if isPyDigit c2 then some (10 * digitVal c1 + digitVal c2, rest2)
        else some (digitVal c1, rest1)
      | [] => some (digitVal c1, [])
    else none
  | [] => none

/-- Pattern A anchored at the start of `cs`. -/
def matchA (cs : List Char) : Option (MatchGroups × List Char) :=
  match cs with
  | '2' :: '0' :: c3 :: c4 :: rest =>
    if isPyDigit c3 && isPyDigit c4 then
      match sepAfter ['.', '/', '年', '-'] rest with
      | none => none
      | some rest2 =>
        match digits12Sep ['.', '/', '月', '-'] (skipWs rest2) with
        | none => none
        | some (m, rest3) =>
          match digits12 (skipWs rest3) with
          | none => none
          | some (d, rest4) =>
            some ({ y := some (2000 + (10 * digitVal c3 + digitVal c4)),
                    y2 := none, m := some m, d := some d }, rest4)
    else none
  | _ => none

/-- The suffix `\s*(?P<y>20\d{2})\s*年?` of pattern B.  The trailing `\s*`
stays inside the match even when the optional `年` is absent. -/
def yearTail (cs : List Char) : Option (Nat × List Char) :=
  match skipWs cs with
  | '2' :: '0' :: c3 :: c4 :: rest =>
    if isPyDigit c3 && isPyDigit c4 then
      let y := 2000 + (10 * digitVal c3 + digitVal c4)
      match skipWs rest with
      | '年' :: rest2 => some (y, rest2)
      | _ => some (y, skipWs rest)
    else none
  | _ => none

/-- Scan for the first `')'`, the end of the greedy `[^)]+` run. -/
def closeScan : List Char → Option (List Char)
  | [] => none
  | c :: rest => if c = ')' then some rest else closeScan rest

/-- The group `\([^)]+\)`: an ASCII `'('`, at least one non-`')'`
character, then the first `')'`. -/
def parenGroup : List Char → Option (List Char)
  | '(' :: c :: rest => if c = ')' then none else closeScan rest
  | _ => none

/-- Pattern B anchored at the start of `cs`.  The optional parenthesised
weekday is tried greedily; if the year fails after it, the regex engine
retries without the group. -/
def matchB (cs : List Char) : Option (MatchGroups × List Char) :=
  match digits12Sep ['月'] cs with
  | none => none
  | some (m, rest1) =>
    match digits12Sep ['日'] (skipWs rest1) with
    | none => none
    | some (d, rest2) =>
      let finish := fun (r : List Char) =>
        match yearTail r with
        | none => none
        | some (y, rest3) =>
          some ({ y := some y, y2 := none, m := some m, d := some d }, rest3)
      match parenGroup rest2 with
      | some restP =>
        match finish restP with
        | some res => some res
        | none => finish rest2
      | none => finish rest2

/-- `\s*` followed by the literal character `c`. -/
def expectAfterWs (c : Char) (cs : List Char) : Option (List Char) :=
  match skipWs cs with
  | c' :: rest => if c' = c then some rest else none
  | [] => none

/-- Pattern C anchored at the start of `cs`. -/
def matchC (cs : List Char) : Option (MatchGroups × List Char) :=
  match cs with
  | c1 :: c2 :: rest =>
    if isPyDigit c1 && isPyDigit c2 then
      match expectAfterWs '年' rest with
      | none => none
      | some rest2 =>
        match digits12Sep ['月'] (skipWs rest2) with
        | none => none
        | some (m, rest3) =>
          match digits12 (skipWs rest3) with
          | none => none
          | some (d, rest4) =>
            some ({ y := none, y2 := some (10 * digitVal c1 + digitVal c2),
                    m := some m, d := some d }, rest4)
    else none
  | _ => none

/-- Fuelled worker for `re.finditer`: try an anchored match at every
position, and after a successful match resume scanning at its end
(matches are non-overlapping).  `pos` is the character index of the
current suffix; each recursive call consumes at least one character, so
`fuel = length + 1` always suffices. -/
def finditerFuel (matcher : List Char → Option (MatchGroups × List Char)) :
    Nat → List Char → Nat → List (MatchGroups × Nat)
  | 0, _, _ => []
  | _ + 1, [], _ => []
  | fuel + 1, c :: rest, pos =>
    match matcher (c :: rest) with
    | none => finditerFuel matcher fuel rest (pos + 1)
    | some (g, rem) =>
      if rem.length < rest.length + 1 then
        (g, pos) :: finditerFuel matcher fuel rem (pos + (rest.length + 1 - rem.length))
      else
        (g, pos) :: finditerFuel matcher fuel rest (pos + 1)

/-- `re.finditer(rgx, text)`, as the list of `(groups, match-start)` pairs. -/
def finditer (matcher : List Char → Option (MatchGroups × List Char))
    (cs : List Char) : List (MatchGroups × Nat) :=
  finditerFuel matcher (cs.length + 1) cs 0

/-! ## `_collect_dates` and `parse_datetime` (src/app.py lines 116-142) -/

/-- The year computation of `_collect_dates` (lines 122-127): group `y`
wins, otherwise a two-digit group `y2` is read as `2000 + y2`. -/
def yearOf (g : MatchGroups) : Option Nat :=
  match g.y with
  | some y => some y
  | none =>
    match g.y2 with
    | some v => some (2000 + v)
    | none => none

/-- Body of the match loop of `_collect_dates` (lines 121-134): the
truthiness test `if y and M and d` followed by validated date
construction; syntactically matched but invalid dates yield `none`. -/
def candOfMatch (q : MatchGroups × Nat) : Option (PyDate × Nat) :=
  match yearOf q.1, q.1.m, q.1.d with
  | some y, some M, some d =>
    if y ≠ 0 ∧ M ≠ 0 ∧ d ≠ 0 then
      match mkDate y M d with
      | some dt => some (dt, q.2)
      | none => none
    else none
  | _, _, _ => none

/-- `_collect_dates(text)`: all validated `(date, match-start)` pairs, in
regex order (pattern A, then B, then C), each in text order. -/
def _collect_dates (text : String) : List (PyDate × Nat) :=
  (finditer matchA text.data).filterMap candOfMatch
    ++ (finditer matchB text.data).filterMap candOfMatch
    ++ (finditer matchC text.data).filterMap candOfMatch

/-- `parse_datetime(text)["event_date"]`: the latest collected date,
formatted `"%Y-%m-%d"`, or `None` when nothing was collected. -/
def parse_datetime (text : String) : Option String :=
  (maxDate? ((_collect_dates text).map Prod.fst)).map formatDate

/-! ## `parse_venue` (src/app.py lines 92-95 and 144-149) -/

/-- Does `needle` occur at the very start of `hay`? -/
def leadsWith : List Char → List Char → Bool
  | [], _ => true
  | _ :: _, [] => false
  | a :: as, b :: bs => a == b && leadsWith as bs

/-- Python substring containment `needle in hay` for strings. -/
def containsSub (needle : List Char) : List Char → Bool
  | [] => needle.isEmpty
  | b :: rest => leadsWith needle (b :: rest) || containsSub needle rest

/-- The fixed venue catalog `VENUE_WORDS`, in declaration order. -/
def VENUE_WORDS : List String :=
  ["日本武道館", "東京巨蛋", "代代木第一體育館", "橫濱体育館", "大阪城Hall",
   "東急シアターオーブ", "東京国際フォーラム", "東京ドームシティホール"]

/-- `parse_venue(text)`: the first catalog entry occurring as an exact
substring of `text`, else `None`. -/
def parse_venue (text : String) : Option String :=
  VENUE_WORDS.find? (fun v => containsSub v.data text.data)

/-! ## `parse_title` (src/app.py lines 104-114 and 151-193) -/

/-- The title keyword catalog `TITLE_KEYWORDS`. -/
def TITLE_KEYWORDS : List String :=
  ["ミュージカル", "コンサート", "ライブ", "公演", "レ・ミゼラブル",
   "LES MISERABLES", "WORLD TOUR", "ワールドツアー", "スペクタキュラー", "スペクタクル"]

/-- The alternatives of `TITLE_STOP_PAT` expanded into literal strings
(`HP[:：]`, `TEL[:：]` and `https?://` each contribute two literals). -/
def STOP_LITERALS : List String :=
  ["主催", "招聘", "製作", "制作", "共同制作", "企画", "協賛", "協力",
   "お問い合わせ", "お問合せ", "問合せ", "HP:", "HP：", "http://", "https://",
   "TEL:", "TEL：", "発券店", "払込票", "指定席", "自由席", "席", "扉", "列",
   "番", "消費税込", "特定チケット", "転売", "CNプレイガイド", "セブン-イレブン"]

/-- `TITLE_STOP_PAT.search(ln)`: some alternative occurs in `ln`,
matched case-insensitively (`re.IGNORECASE`). -/
def stopMatches (ln : List Char) : Bool :=
  STOP_LITERALS.any (fun w => containsSub (w.data.map asciiLower) (ln.map asciiLower))

/-- `any(k in ln for k in TITLE_KEYWORDS)`. -/
def hasKeyword (ln : List Char) : Bool :=
  TITLE_KEYWORDS.any (fun k => containsSub k.data ln)

/-- `_is_upper_english(s)` (src/app.py lines 151-153): at least four
ASCII letters, all of them uppercase. -/
def _is_upper_english (s : List Char) : Bool :=
  let letters := s.filter Char.isAlpha
  decide (4 ≤ letters.length) && letters.all Char.isUpper

/-- The acceptance test of the forward walk (line 179): a title keyword,
a Japanese quotation bracket, or an all-caps Latin line. -/
def acceptLine (ln : List Char) : Bool :=
  hasKeyword ln || ln.contains '『' || ln.contains '』' || _is_upper_english ln

/-- `[ln.strip() for ln in text.splitlines() if ln.strip()]` (line 157). -/
def titleLines (text : String) : List (List Char) :=
  ((splitlines text.data).map pyStrip).filter (fun l => !l.isEmpty)

/-- Index of the first line containing a title keyword (lines 160-164). -/
def anchorIdx (lines : List (List Char)) : Option Nat :=
  lines.findIdx? hasKeyword

/-- The forward walk of `parse_title` (lines 172-187), starting from the
anchor line: `k` is the number of lines already accepted.  A stop-pattern
line or a non-qualifying line ends the walk; after the third accepted
line the walk also stops. -/
def buildParts (k : Nat) : List (List Char) → List (List Char)
  | [] => []
  | ln :: rest =>
    if stopMatches ln then []
    else if acceptLine ln then
      if 3 ≤ k + 1 then [ln]
      else ln :: buildParts (k + 1) rest
    else []

/-- `parse_title(text)` (src/app.py lines 155-193). -/
def parse_title (text : String) : Option String :=
  let lines := titleLines text
  match anchorIdx lines with
  | none =>
    match lines.find? _is_upper_english with
    | some ln => some (String.mk ln)
    | none => none
  | some start =>
    let parts := buildParts 0 (lines.drop start)
    let title := collapseWs (pyStrip (joinSpace parts))
    if title.isEmpty then none else some (String.mk title)

/-! ## Order lemmas for `dateLt` / `dateLe` / `pyMax` -/

theorem dateLe_refl (a : PyDate) : dateLe a a := by
  unfold dateLe; omega

theorem dateLe_trans {a b c : PyDate} (h1 : dateLe a b) (h2 : dateLe b c) :
    dateLe a c := by
  unfold dateLe at h1 h2 ⊢; omega

theorem dateLe_pyMax_left (a b : PyDate) : dateLe a (pyMax a b) := by
  unfold pyMax
  split
  · next h => unfold dateLt at h; unfold dateLe; omega
  · exact dateLe_refl a

theorem dateLe_pyMax_right (a b : PyDate) : dateLe b (pyMax a b) := by
  unfold pyMax
  split
  · exact dateLe_refl b
  · next h => unfold dateLt at h; unfold dateLe; omega

theorem pyMax_cases (a b : PyDate) : pyMax a b = a ∨ pyMax a b = b := by
  unfold pyMax; split
  · exact Or.inr rfl
  · exact Or.inl rfl

theorem foldl_pyMax_mem : ∀ (ds : List PyDate) (d : PyDate),
    ds.foldl pyMax d ∈ d :: ds := by
  intro ds
  induction ds with
  | nil => intro d; simp
  | cons e tl ih =>
    intro d
    rw [List.foldl_cons]
    rcases List.mem_cons.1 (ih (pyMax d e)) with h | h
    · rcases pyMax_cases d e with hc | hc
      · rw [h, hc]; exact List.Mem.head _
      · rw [h, hc]; exact List.Mem.tail _ (List.Mem.head _)
    · exact List.Mem.tail _ (List.Mem.tail _ h)

theorem foldl_pyMax_ge : ∀ (ds : List PyDate) (d x : PyDate),
    x ∈ d :: ds → dateLe x (ds.foldl pyMax d) := by
  intro ds
  induction ds with
  | nil =>
    intro d x hx
    rw [List.mem_singleton] at hx
    subst hx
    exact dateLe_refl x
  | cons e tl ih =>
    intro d x hx
    rw [List.foldl_cons]
    rcases List.mem_cons.1 hx with h | h
    · subst h
      exact dateLe_trans (dateLe_pyMax_left x e) (ih (pyMax x e) _ (List.Mem.head _))
    · rcases List.mem_cons.1 h with h | h
      · subst h
        exact dateLe_trans (dateLe_pyMax_right d x) (ih (pyMax d x) _ (List.Mem.head _))
      · exact ih (pyMax d e) x (List.Mem.tail _ h)

/-! ## Validity of collected candidates -/

theorem mkDate_valid {y m d : Nat} {dt : PyDate} (h : mkDate y m d = some dt) :
    dateValid dt.year dt.month dt.day := by
  unfold mkDate at h
  split at h
  · next hv =>
    injection h with h
    subst h
    exact hv
  · exact absurd h (by simp)

theorem candOfMatch_valid (q : MatchGroups × Nat) (p : PyDate × Nat)
    (h : candOfMatch q = some p) : dateValid p.1.year p.1.month p.1.day := by
  unfold candOfMatch at h
  split at h
  · next y M d _ _ _ =>
    split at h
    · split at h
      · next dt hmk =>
        injection h with h
        subst h
        exact mkDate_valid hmk
      · exact absurd h (by simp)
    · exact absurd h (by simp)
  · exact absurd h (by simp)

/-! ## Matches found by `finditer` come from the anchored matcher -/

theorem finditerFuel_mem_matcher
    (matcher : List Char → Option (MatchGroups × List Char))
    (g : MatchGroups) (i : Nat) :
    ∀ (fuel : Nat) (cs : List Char) (pos : Nat),
      (g, i) ∈ finditerFuel matcher fuel cs pos →
      ∃ cs2 rest, matcher cs2 = some (g, rest) := by
  intro fuel
  induction fuel with
  | zero => intro cs pos h; simp [finditerFuel] at h
  | succ n ih =>
    intro cs pos h
    cases cs with
    | nil => simp [finditerFuel] at h
    | cons c rest =>
      rw [finditerFuel] at h
      split at h
      · exact ih rest (pos + 1) h
      · next g2 rem hm =>
        split at h
        · rcases List.mem_cons.1 h with h | h
          · obtain ⟨h1, -⟩ := Prod.mk.injEq .. ▸ h
            exact ⟨c :: rest, rem, h1 ▸ hm⟩
          · exact ih rem _ h
        · rcases List.mem_cons.1 h with h | h
          · obtain ⟨h1, -⟩ := Prod.mk.injEq .. ▸ h
            exact ⟨c :: rest, rem, h1 ▸ hm⟩
          · exact ih rest _ h

theorem matchC_year (cs : List Char) (g : MatchGroups) (rest : List Char)
    (h : matchC cs = some (g, rest)) :
    g.y = none ∧ ∃ v, g.y2 = some v ∧ yearOf g = some (2000 + v) := by
  unfold matchC at h
  split at h
  · split at h
    · split at h
      · exact absurd h (by simp)
      · split at h
        · exact absurd h (by simp)
        · split at h
          · exact absurd h (by simp)
          · next d rest4 _ =>
            injection h with h
            obtain ⟨h1, -⟩ := Prod.mk.injEq .. ▸ h
            subst h1
            exact ⟨rfl, _, rfl, rfl⟩
    · exact absurd h (by simp)
  · exact absurd h (by simp)

/-! ## `find?` selects the first catalog entry whose test holds -/

theorem find?_first {α : Type} (p : α → Bool) :
    ∀ (l : List α) (i : Nat) (v : α), l[i]? = some v → p v = true →
      (∀ j u, j < i → l[j]? = some u → p u = false) →
      l.find? p = some v := by
  intro l
  induction l with
  | nil => intro i v h; simp at h
  | cons a tl ih =>
    intro i v h hv hprev
    cases i with
    | zero =>
      simp at h
      subst h
      simp [List.find?_cons, hv]
    | succ n =>
      have ha : p a = false := hprev 0 a (Nat.succ_pos n) (by simp)
      rw [List.find?_cons, ha]
      exact ih n v (by simpa using h) hv
        (fun j u hj hu => hprev (j + 1) u (by omega) (by simpa using hu))

/-! ## Claims -/

/-- C1: whenever at least one syntactic date match survives calendar
validation, `parse_datetime` returns the maximum (latest) of all
validated candidate dates — independent of the candidates' positions in
the text and of which pattern produced them, since only the list of
collected date values enters the selection. -/
theorem event_date_is_max (text : String) (p : PyDate × Nat)
    (hp : p ∈ _collect_dates text) :
    ∃ dm, dm ∈ (_collect_dates text).map Prod.fst ∧
      (∀ x ∈ (_collect_dates text).map Prod.fst, dateLe x dm) ∧
      parse_datetime text = some (formatDate dm) := by
  have hm : p.1 ∈ (_collect_dates text).map Prod.fst :=
    List.mem_map_of_mem Prod.fst hp
  cases hds : (_collect_dates text).map Prod.fst with
  | nil => rw [hds] at hm; cases hm
  | cons d ds =>
    refine ⟨ds.foldl pyMax d, ?_, ?_, ?_⟩
    · exact foldl_pyMax_mem ds d
    · exact fun x hx => foldl_pyMax_ge ds d x hx
    · unfold parse_datetime
      rw [hds]
      rfl

/-- Witness for C1: a text with two valid dates 2025-07-01 < 2025-08-10. -/
theorem event_date_is_max_witness :
    ∃ dm, dm ∈ (_collect_dates "2025/7/1\n2025年8月10日").map Prod.fst ∧
      (∀ x ∈ (_collect_dates "2025/7/1\n2025年8月10日").map Prod.fst, dateLe x dm) ∧
      parse_datetime "2025/7/1\n2025年8月10日" = some (formatDate dm) :=
  event_date_is_max "2025/7/1\n2025年8月10日" (⟨2025, 7, 1⟩, 0) (by decide)

/-- C8: when `_collect_dates` finds nothing (no pattern produces a
validated calendar date, e.g. on empty text) `parse_datetime` returns
`None`; it is a total function, so no error is raised. -/
theorem zero_dates_absent (text : String) (h : _collect_dates text = []) :
    parse_datetime text = none := by
  unfold parse_datetime
  rw [h]
  rfl

/-- Witness for C8: the empty text collects no dates. -/
theorem zero_dates_absent_witness : parse_datetime "" = none :=
  zero_dates_absent "" (by decide)

/-- C9: in "1999年5月1日" the two-digit-year pattern matches the last
two digits "99" of the 4-digit year (at character offset 2), yielding
the candidate 2099-05-01, which is then returned as the event date. -/
theorem four_digit_year_swallowed :
    _collect_dates "1999年5月1日" = [(⟨2099, 5, 1⟩, 2)] ∧
    parse_datetime "1999年5月1日" = some "2099-05-01" :=
  ⟨by decide, by decide⟩

/-- C6: every candidate that `_collect_dates` keeps is a valid calendar
date, so a syntactic match with invalid numbers contributes nothing; in
particular "2025年2月30日" is matched syntactically by pattern A yet
collects no candidate, and its presence does not disturb the selection
among the remaining valid candidates. -/
theorem invalid_dates_discarded (text : String) :
    (∀ p ∈ _collect_dates text, dateValid p.1.year p.1.month p.1.day) ∧
    finditer matchA "2025年2月30日".data ≠ [] ∧
    _collect_dates "2025年2月30日" = [] ∧
    parse_datetime "2025年2月30日 2025/7/1" = some "2025-07-01" := by
  refine ⟨?_, by decide, by decide, by decide⟩
  intro p hp
  unfold _collect_dates at hp
  rcases List.mem_append.1 hp with hp | hp
  · rcases List.mem_append.1 hp with hp | hp
    · obtain ⟨q, -, hq⟩ := List.mem_filterMap.1 hp
      exact candOfMatch_valid q p hq
    · obtain ⟨q, -, hq⟩ := List.mem_filterMap.1 hp
      exact candOfMatch_valid q p hq
  · obtain ⟨q, -, hq⟩ := List.mem_filterMap.1 hp
    exact candOfMatch_valid q p hq

/-- Witness for C6: the candidate collected from "2025/7/1" is valid. -/
theorem invalid_dates_discarded_witness : dateValid 2025 7 1 :=
  (invalid_dates_discarded "2025/7/1").1 (⟨2025, 7, 1⟩, 0) (by decide)

/-- C7: every match of the two-digit-year pattern C carries no `y` group
and a `y2` group, and the year computed for it is `2000 + y2`; in
particular "25年8月10日" yields event date "2025-08-10". -/
theorem two_digit_year_plus_2000 (text : String) :
    (∀ g i, (g, i) ∈ finditer matchC text.data →
      g.y = none ∧ ∃ v, g.y2 = some v ∧ yearOf g = some (2000 + v)) ∧
    parse_datetime "25年8月10日" = some "2025-08-10" := by
  refine ⟨?_, by decide⟩
  intro g i hgi
  obtain ⟨cs2, rest, hm⟩ := finditerFuel_mem_matcher matchC g i _ _ _ hgi
  exact matchC_year cs2 g rest hm

/-- Witness for C7: the single pattern-C match of "25年8月10日". -/
theorem two_digit_year_plus_2000_witness :
    ({ y := none, y2 := some 25, m := some 8, d := some 10 } : MatchGroups).y = none ∧
    ∃ v, ({ y := none, y2 := some 25, m := some 8, d := some 10 } : MatchGroups).y2 = some v ∧
      yearOf { y := none, y2 := some 25, m := some 8, d := some 10 } = some (2000 + v) :=
  (two_digit_year_plus_2000 "25年8月10日").1
    { y := none, y2 := some 25, m := some 8, d := some 10 } 0 (by decide)

/-- C2: `parse_venue` walks the fixed catalog in declaration order and
returns the first entry occurring as an exact substring of the text, so
with several occurring entries the one earliest in the catalog wins
irrespective of text position; with none it returns `None`. -/
theorem venue_catalog_order (text : String) :
    ((∀ v ∈ VENUE_WORDS, containsSub v.data text.data = false) →
      parse_venue text = none) ∧
    (∀ (i : Nat) (v : String), VENUE_WORDS[i]? = some v →
      containsSub v.data text.data = true →
      (∀ (j : Nat) (u : String), j < i → VENUE_WORDS[j]? = some u →
        containsSub u.data text.data = false) →
      parse_venue text = some v) := by
  constructor
  · intro hall
    unfold parse_venue
    rw [List.find?_eq_none]
    intro v hv
    simp [hall v hv]
  · intro i v hi hv hprev
    unfold parse_venue
    exact find?_first _ VENUE_WORDS i v hi hv hprev

/-- Witness for C2: the text contains both 東京巨蛋 (catalog index 1) and
日本武道館 (catalog index 0); the catalog-earlier 日本武道館 wins. -/
theorem venue_catalog_order_witness : parse_venue "東京巨蛋 日本武道館" = some "日本武道館" :=
  (venue_catalog_order "東京巨蛋 日本武道館").2 0 "日本武道館" rfl (by decide)
    (by intro j u hj; omega)

/-! ## The forward walk of `parse_title`: cap and stop-pattern lemmas -/

theorem buildParts_length_le : ∀ (ls : List (List Char)) (k : Nat), k ≤ 2 →
    (buildParts k ls).length ≤ 3 - k := by
  intro ls
  induction ls with
  | nil => intro k hk; simp [buildParts]
  | cons ln tl ih =>
    intro k hk
    unfold buildParts
    split
    · simp
    · split
      · split
        · next hcap => simp; omega
        · next hcap =>
          have := ih (k + 1) (by omega)
          simp only [List.length_cons]
          omega
      · simp

theorem buildParts_append_stable : ∀ (ls rest : List (List Char)) (k : Nat),
    k ≤ 2 → (buildParts k ls).length = 3 - k →
    buildParts k (ls ++ rest) = buildParts k ls := by
  intro ls
  induction ls with
  | nil =>
    intro rest k hk hlen
    simp [buildParts] at hlen
    omega
  | cons ln tl ih =>
    intro rest k hk hlen
    rw [List.cons_append]
    unfold buildParts at hlen ⊢
    split at hlen
    · next hstop => simp [hstop]
    · next hstop =>
      split at hlen
      · next hacc =>
        split at hlen
        · next hcap => simp [hstop, hacc, hcap]
        · next hcap =>
          simp only [List.length_cons] at hlen
          simp only [hstop, hacc, hcap, if_false, if_true, ite_false, ite_true]
          rw [ih rest (k + 1) (by omega) (by omega)]
      · next hacc => simp [hstop, hacc]

theorem buildParts_take_takeWhile : ∀ (ls : List (List Char)) (k : Nat),
    ∃ m, buildParts k ls =
      (ls.takeWhile (fun ln => !stopMatches ln)).take m := by
  intro ls
  induction ls with
  | nil => intro k; exact ⟨0, by simp [buildParts]⟩
  | cons ln tl ih =>
    intro k
    by_cases hstop : stopMatches ln
    · exact ⟨0, by simp [buildParts, hstop, List.takeWhile_cons]⟩
    · by_cases hacc : acceptLine ln
      · by_cases hcap : 3 ≤ k + 1
        · exact ⟨1, by simp [buildParts, hstop, hacc, hcap, List.takeWhile_cons]⟩
        · obtain ⟨m, hm⟩ := ih (k + 1)
          refine ⟨m + 1, ?_⟩
          simp [buildParts, hstop, hacc, hcap, List.takeWhile_cons, hm]
      · exact ⟨0, by simp [buildParts, hstop, hacc]⟩

/-- C4: the forward walk of `parse_title` accepts at most 3 lines; once
3 lines are accepted the walk stops, so any further lines — qualifying
or not — leave the span unchanged. -/
theorem title_span_cap (ls rest : List (List Char)) :
    (buildParts 0 ls).length ≤ 3 ∧
    ((buildParts 0 ls).length = 3 →
      buildParts 0 (ls ++ rest) = buildParts 0 ls) := by
  constructor
  · simpa using buildParts_length_le ls 0 (by omega)
  · intro h
    exact buildParts_append_stable ls rest 0 (by omega) (by simpa using h)

/-- Witness for C4: three accepted keyword lines followed by a fourth
qualifying line; the fourth is not swept in. -/
theorem title_span_cap_witness :
    buildParts 0 (["ライブ".data, "公演".data, "コンサート".data] ++ ["ミュージカル".data]) =
      buildParts 0 ["ライブ".data, "公演".data, "コンサート".data] :=
  (title_span_cap ["ライブ".data, "公演".data, "コンサート".data]
    ["ミュージカル".data]).2 (by decide)

/-- C5: for a text with an anchor line, the span built by the forward
walk is drawn entirely from the lines strictly before the first
stop-pattern line after the anchor: it is a prefix (`take m`) of the
`takeWhile` of the non-stop lines, so the stop line and everything after
it are excluded even if they would otherwise qualify. -/
theorem title_stop_terminates (text : String) (start : Nat)
    (_h : anchorIdx (titleLines text) = some start) :
    ∃ m, buildParts 0 ((titleLines text).drop start) =
      (((titleLines text).drop start).takeWhile (fun ln => !stopMatches ln)).take m :=
  buildParts_take_takeWhile _ 0

/-- Witness for C5: anchor at line 0, stop line "主催です" at line 1,
with a keyword line after it. -/
theorem title_stop_terminates_witness :
    ∃ m, buildParts 0 ((titleLines "ライブ\n主催です\nコンサート").drop 0) =
      (((titleLines "ライブ\n主催です\nコンサート").drop 0).takeWhile
        (fun ln => !stopMatches ln)).take m :=
  title_stop_terminates "ライブ\n主催です\nコンサート" 0 (by decide)

/-- C10: when the anchor line itself matches the stop pattern, the walk
accepts nothing, the empty joined span normalizes to `None`, and the
all-caps fallback is never consulted because an anchor exists. -/
theorem anchor_stop_gives_none (text : String) (start : Nat) (ln : List Char)
    (rest : List (List Char))
    (ha : anchorIdx (titleLines text) = some start)
    (hd : (titleLines text).drop start = ln :: rest)
    (hs : stopMatches ln = true) :
    parse_title text = none := by
  simp only [parse_title, ha, hd]
  unfold buildParts
  rw [if_pos hs]
  rfl

/-- Witness for C10: the first keyword line "ミュージカル主催" also
stop-matches (主催), and the all-caps line "ABCDEF" below it is ignored. -/
theorem anchor_stop_gives_none_witness :
    parse_title "ミュージカル主催\nABCDEF" = none :=
  anchor_stop_gives_none "ミュージカル主催\nABCDEF" 0 "ミュージカル主催".data
    ["ABCDEF".data] (by decide) (by decide) (by decide)

/-! ## Whitespace lemmas for `pyStrip` and `collapseWs` -/

theorem head_dropWhile_not (p : Char → Bool) :
    ∀ (l : List Char) (c : Char), (l.dropWhile p).head? = some c → p c = false := by
  intro l
  induction l with
  | nil => intro c h; simp at h
  | cons a tl ih =>
    intro c h
    by_cases hpa : p a = true
    · rw [List.dropWhile_cons, if_pos hpa] at h
      exact ih c h
    · rw [List.dropWhile_cons, if_neg hpa] at h
      simp at h
      subst h
      simpa using hpa

theorem getLast?_cons_ne (a : Char) (l : List Char) (h : l ≠ []) :
    (a :: l).getLast? = l.getLast? := by
  cases l with
  | nil => exact absurd rfl h
  | cons b tl => exact List.getLast?_cons_cons

theorem getLast?_dropWhile (p : Char → Bool) :
    ∀ (l : List Char), l.dropWhile p ≠ [] →
      (l.dropWhile p).getLast? = l.getLast? := by
  intro l
  induction l with
  | nil => intro h; exact absurd rfl h
  | cons a tl ih =>
    intro h
    by_cases hpa : p a = true
    · rw [List.dropWhile_cons, if_pos hpa] at h ⊢
      have htl : tl ≠ [] := by
        intro he
        subst he
        exact h (by simp)
      rw [ih h, getLast?_cons_ne a tl htl]
    · rw [List.dropWhile_cons, if_neg hpa]

theorem pyStrip_head_not_ws (x : List Char) (c : Char)
    (h : (pyStrip x).head? = some c) : pyIsSpace c = false := by
  unfold pyStrip dropWsEnd at h
  rw [List.head?_reverse] at h
  have hne : (x.dropWhile pyIsSpace).reverse.dropWhile pyIsSpace ≠ [] := by
    intro hnil
    rw [hnil] at h
    simp at h
  rw [getLast?_dropWhile pyIsSpace _ hne, List.getLast?_reverse] at h
  exact head_dropWhile_not pyIsSpace x c h

theorem pyStrip_last_not_ws (x : List Char) (c : Char)
    (h : (pyStrip x).getLast? = some c) : pyIsSpace c = false := by
  unfold pyStrip dropWsEnd at h
  rw [List.getLast?_reverse] at h
  exact head_dropWhile_not pyIsSpace _ c h

theorem pyStrip_fix (x : List Char)
    (h1 : ∀ c, x.head? = some c → pyIsSpace c = false)
    (h2 : ∀ c, x.getLast? = some c → pyIsSpace c = false) :
    pyStrip x = x := by
  unfold pyStrip dropWsEnd
  have hdw : x.dropWhile pyIsSpace = x := by
    cases x with
    | nil => rfl
    | cons a tl => rw [List.dropWhile_cons, if_neg (by simp [h1 a rfl])]
  rw [hdw]
  have hrw : x.reverse.dropWhile pyIsSpace = x.reverse := by
    cases hrev : x.reverse with
    | nil => rfl
    | cons d r =>
      have hd : x.getLast? = some d := by
        rw [← List.head?_reverse, hrev]
        rfl
      rw [List.dropWhile_cons, if_neg (by simp [h2 d hd])]
  rw [hrw, List.reverse_reverse]

theorem pyStrip_idem (x : List Char) : pyStrip (pyStrip x) = pyStrip x :=
  pyStrip_fix (pyStrip x) (pyStrip_head_not_ws x) (pyStrip_last_not_ws x)

theorem collapseAux_idem : ∀ (x : List Char) (b : Bool),
    collapseAux b (collapseAux b x) = collapseAux b x := by
  intro x
  induction x with
  | nil => intro b; rfl
  | cons c rest ih =>
    intro b
    have hsp : pyIsSpace ' ' = true := by decide
    by_cases hc : pyIsSpace c = true
    · cases b
      · simp only [collapseAux, hc, hsp, if_true, Bool.false_eq_true, if_false]
        rw [ih true]
      · simp only [collapseAux, hc, if_true]
        rw [ih true]
    · simp only [collapseAux, hc, Bool.false_eq_true, if_false]
      rw [ih false]

theorem getLast?_cons_isSome : ∀ (l : List Char) (a : Char),
    ∃ c, (a :: l).getLast? = some c := by
  intro l
  induction l with
  | nil => intro a; exact ⟨a, rfl⟩
  | cons b tl ih =>
    intro a
    obtain ⟨c, hc⟩ := ih b
    exact ⟨c, by rw [getLast?_cons_ne a _ (by simp)]; exact hc⟩

theorem collapseAux_cons (b : Bool) (c : Char) (rest : List Char) :
    collapseAux b (c :: rest) =
      if pyIsSpace c then
        (if b then collapseAux true rest else ' ' :: collapseAux true rest)
      else c :: collapseAux false rest := rfl

theorem collapseAux_getLast : ∀ (x : List Char) (c : Char),
    x.getLast? = some c → pyIsSpace c = false →
    ∀ b, (collapseAux b x).getLast? = some c := by
  intro x
  induction x with
  | nil => intro c h; simp at h
  | cons a tl ih =>
    intro c h hc b
    cases tl with
    | nil =>
      simp at h
      subst h
      simp [collapseAux, hc]
    | cons a2 tl2 =>
      have h2 : (a2 :: tl2).getLast? = some c := by
        rw [← getLast?_cons_ne a _ (by simp)]
        exact h
      have hL := ih c h2 hc
      have hLne : ∀ b2, collapseAux b2 (a2 :: tl2) ≠ [] := by
        intro b2 hnil
        have := hL b2
        rw [hnil] at this
        simp at this
      by_cases ha : pyIsSpace a = true
      · cases b
        · rw [collapseAux_cons, if_pos ha, if_neg (by simp)]
          rw [getLast?_cons_ne _ _ (hLne true)]
          exact hL true
        · rw [collapseAux_cons, if_pos ha, if_pos rfl]
          exact hL true
      · rw [collapseAux_cons, if_neg ha]
        rw [getLast?_cons_ne _ _ (hLne false)]
        exact hL false

theorem titleLines_mem (text : String) (ln : List Char)
    (h : ln ∈ titleLines text) : ln ≠ [] ∧ pyStrip ln = ln := by
  unfold titleLines at h
  obtain ⟨hmem, hne⟩ := List.mem_filter.1 h
  obtain ⟨orig, -, rfl⟩ := List.mem_map.1 hmem
  refine ⟨?_, pyStrip_idem orig⟩
  intro hnil
  rw [hnil] at hne
  simp at hne

/-- C3 counterexample: on the all-caps fallback path `parse_title`
returns the stripped line as-is (src/app.py line 169), without the
whitespace-collapsing substitution, so an internal double space
survives — the claim's normalization guarantee fails there. -/
theorem title_fallback_uncollapsed :
    parse_title "ABCD  EFGH" = some "ABCD  EFGH" ∧
    collapseWs "ABCD  EFGH".data ≠ "ABCD  EFGH".data :=
  ⟨by decide, by decide⟩

/-- C3 amended: every title returned by `parse_title` is non-empty and
has no leading or trailing whitespace; the collapse of internal
whitespace runs to single spaces is guaranteed on the anchored path
(when an anchor line exists), but not on the all-caps fallback path,
which returns the stripped line verbatim. -/
theorem title_normalized_amended (text : String) (r : String)
    (h : parse_title text = some r) :
    r.data ≠ [] ∧ pyStrip r.data = r.data ∧
      (∀ start, anchorIdx (titleLines text) = some start →
        collapseWs r.data = r.data) := by
  cases ha : anchorIdx (titleLines text) with
  | none =>
    simp only [parse_title, ha] at h
    cases hf : (titleLines text).find? _is_upper_english with
    | none => rw [hf] at h; simp at h
    | some ln =>
      rw [hf] at h
      have hr : r = String.mk ln := by
        injection h with h2
        exact h2.symm
      subst hr
      have hm := titleLines_mem text ln (List.mem_of_find?_eq_some hf)
      refine ⟨by simpa using hm.1, by simpa using hm.2, ?_⟩
      intro start hstart
      cases hstart
  | some start0 =>
    simp only [parse_title, ha] at h
    set s : List Char :=
      pyStrip (joinSpace (buildParts 0 ((titleLines text).drop start0))) with hs
    by_cases he : (collapseWs s).isEmpty
    · rw [if_pos he] at h
      cases h
    · rw [if_neg he] at h
      have hr : r = String.mk (collapseWs s) := by
        injection h with h2
        exact h2.symm
      subst hr
      have hne : collapseWs s ≠ [] := by
        intro hnil
        apply he
        rw [hnil]
        rfl
      cases hsc : s with
      | nil =>
        rw [hsc] at hne
        exact absurd rfl hne
      | cons c0 s2 =>
        rw [hsc] at hne
        have hc0 : pyIsSpace c0 = false := by
          apply pyStrip_head_not_ws
            (joinSpace (buildParts 0 ((titleLines text).drop start0))) c0
          rw [← hs, hsc]
          rfl
        have hcol : collapseWs (c0 :: s2) = c0 :: collapseAux false s2 := by
          unfold collapseWs
          rw [collapseAux_cons, if_neg (by simp [hc0])]
        obtain ⟨cl, hcl⟩ := getLast?_cons_isSome s2 c0
        have hclw : pyIsSpace cl = false := by
          apply pyStrip_last_not_ws
            (joinSpace (buildParts 0 ((titleLines text).drop start0))) cl
          rw [← hs, hsc]
          exact hcl
        have hlast : (collapseWs (c0 :: s2)).getLast? = some cl :=
          collapseAux_getLast (c0 :: s2) cl hcl hclw false
        refine ⟨by simpa using hne, ?_, ?_⟩
        · show pyStrip (collapseWs (c0 :: s2)) = collapseWs (c0 :: s2)
          apply pyStrip_fix
          · intro c hc
            rw [hcol] at hc
            simp at hc
            subst hc
            exact hc0
          · intro c hc
            rw [hlast] at hc
            injection hc with hc
            subst hc
            exact hclw
        · intro start hstart
          show collapseWs (collapseWs (c0 :: s2)) = collapseWs (c0 :: s2)
          exact collapseAux_idem (c0 :: s2) false

/-- Witness for the amended C3: an anchored one-line title. -/
theorem title_normalized_amended_witness :
    "ライブ 2025".data ≠ ([] : List Char) ∧
    pyStrip "ライブ 2025".data = "ライブ 2025".data ∧
      (∀ start, anchorIdx (titleLines "ライブ 2025") = some start →
        collapseWs "ライブ 2025".data = "ライブ 2025".data) :=
  title_normalized_amended "ライブ 2025" "ライブ 2025" (by decide)
